/-
Verification of the nuttyfi32 BSP build scripts.

This file gives a shallow embedding, in Lean 4, of the core logic of the
repository: the descriptor synchronizer, the rebuild-gating fingerprint
engine, the archive builder, the boards.txt section transformer, and the
publish workflow.  Each definition is translated from the named Python
function of the source scripts.  Python strings are modelled as lists of
characters and the Python str primitives (strip, startswith, in,
replace(old, new, 1), upper, split) are given explicit structurally
recursive models, so that every definition evaluates inside the kernel.
The SHA-256 digest itself is abstracted as an explicit function parameter,
since hashlib is an external library; everything the scripts compute
around the digest is modelled concretely.
-/
import Mathlib

set_option maxHeartbeats 1000000

/-! ## Python string primitives -/

/-- Whitespace test used by the model of str.strip; covers the blank,
tab, newline and carriage-return characters that occur in the data
handled by the scripts. -/
def isSpaceChar (c : Char) : Bool :=
  c = ' ' || c = '\t' || c = '\n' || c = '\r'

/-- Model of Python str.strip(): remove whitespace from both ends. -/
def pyStrip (s : List Char) : List Char :=
  ((s.dropWhile isSpaceChar).reverse.dropWhile isSpaceChar).reverse

/-- Model of Python s.startswith(pat). -/
def pyStartsWith (s pat : List Char) : Bool :=
  pat.isPrefixOf s

/-- Model of the Python substring test pat in s. -/
def containsChars : List Char → List Char → Bool
  | [], pat => pat.isPrefixOf []
  | c :: rest, pat => pat.isPrefixOf (c :: rest) || containsChars rest pat

/-- Model of Python s.replace(old, new, 1): replace only the first,
leftmost occurrence of old (used with a nonempty old). -/
def replaceFirstChars : List Char → List Char → List Char → List Char
  | [], _, _ => []
  | c :: rest, pat, rep =>
      if pat.isPrefixOf (c :: rest) then rep ++ (c :: rest).drop pat.length
      else c :: replaceFirstChars rest pat rep

/-- Model of Python str.upper() on one character (ASCII letters). -/
def pyUpperChar (c : Char) : Char :=
  if 97 ≤ c.toNat && c.toNat ≤ 122 then Char.ofNat (c.toNat - 32) else c

/-- Model of Python str.upper(). -/
def pyUpperChars (s : List Char) : List Char :=
  s.map pyUpperChar

/-- Model of Python s.split(chr(10)), splitting on every newline;
the empty string yields one empty segment, as in Python. -/
def splitNl : List Char → List (List Char)
  | [] => [[]]
  | c :: rest =>
      if c = '\n' then [] :: splitNl rest
      else
        match splitNl rest with
        | [] => [[c]]
        | seg :: segs => (c :: seg) :: segs

/-- Decimal digit character, offset into the ASCII digits. -/
def digitChar (d : Nat) : Char := Char.ofNat (48 + d)

/-- Fuelled decimal printer; with fuel above the digit count this is the
usual most-significant-first decimal representation. -/
def natCharsCore : Nat → Nat → List Char
  | 0, _ => []
  | fuel + 1, n =>
      if n < 10 then [digitChar n]
      else natCharsCore fuel (n / 10) ++ [digitChar (n % 10)]

/-- Model of Python str(n) for a natural number. -/
def natChars (n : Nat) : List Char := natCharsCore (n + 1) n

/-! ## Descriptor synchronizer -/

/-- The fixed version string, VERSION = "1.0.0" in every build script. -/
def VERSION : String := "1.0.0"

/-- A JSON-like document, the shape handled by json.load and json.dump. -/
inductive Json where
  | null : Json
  | bool (b : Bool) : Json
  | num (n : Int) : Json
  | str (s : String) : Json
  | arr (elems : List Json) : Json
  | obj (fields : List (String × Json)) : Json
deriving Repr

/-- Lookup of a key in an object field list, first match wins.  Models the
Python read data[key] on a dict loaded from JSON. -/
def Json.getKey (fields : List (String × Json)) (k : String) : Option Json :=
  match fields with
  | [] => none
  | (k', v) :: rest => if k' = k then some v else Json.getKey rest k

/-- Assignment data[key] = v on a Python dict: replaces the value in place
when the key is present, appends the binding otherwise. -/
def Json.setKey (fields : List (String × Json)) (k : String) (v : Json) :
    List (String × Json) :=
  match fields with
  | [] => [(k, v)]
  | (k', v') :: rest =>
      if k' = k then (k, v) :: rest else (k', v') :: Json.setKey rest k v

/-- Models calculate_sha256 (build_nuttyfi32_complete_auto_final.py lines
73 to 79): the SHA-256 hex digest of the file bytes, uppercased.  The
digest computation hashlib.sha256(...).hexdigest() is the abstract
parameter hexDigest; the .upper() call is modelled concretely. -/
def calculate_sha256 (hexDigest : List Nat → List Char)
    (fileBytes : List Nat) : String :=
  String.mk (pyUpperChars (hexDigest fileBytes))

/-- The download URL template used by update_json_with_zip_info (line 430). -/
def downloadUrl : String :=
  "https://github.com/itsbhupendrasingh/nuttyfi32/releases/download/" ++
    VERSION ++ "/nuttyfi32-" ++ VERSION ++ ".zip"

/-- The archive file name nuttyfi32-{VERSION}.zip (line 431). -/
def archiveFileNameStr : String := "nuttyfi32-" ++ VERSION ++ ".zip"

/-- The five field assignments performed on the platform dict by
update_json_with_zip_info (lines 428 to 433): version, url,
archiveFileName, checksum and size, in source order. -/
def setPlatformFields (checksum size : String)
    (platformFields : List (String × Json)) : List (String × Json) :=
  let f1 := Json.setKey platformFields "version" (Json.str VERSION)
  let f2 := Json.setKey f1 "url" (Json.str downloadUrl)
  let f3 := Json.setKey f2 "archiveFileName" (Json.str archiveFileNameStr)
  let f4 := Json.setKey f3 "checksum" (Json.str ("SHA-256:" ++ checksum))
  Json.setKey f4 "size" (Json.str size)

/-- Navigates data["packages"][0]["platforms"][0] and rewrites that platform
object through f, keeping every sibling untouched.  Returns none exactly
when the Python subscript chain would raise (missing key, empty list, or a
non-object where a dict is required). -/
def updatePlatform0 (data : Json)
    (f : List (String × Json) → List (String × Json)) : Option Json :=
  match data with
  | Json.obj top =>
      match Json.getKey top "packages" with
      | some (Json.arr (Json.obj pkg0 :: pkgs)) =>
          match Json.getKey pkg0 "platforms" with
          | some (Json.arr (Json.obj plat0 :: plats)) =>
              some (Json.obj (Json.setKey top "packages"
                (Json.arr (Json.obj (Json.setKey pkg0 "platforms"
                  (Json.arr (Json.obj (f plat0) :: plats))) :: pkgs))))
          | _ => none
      | _ => none
  | _ => none

/-- Models update_json_with_zip_info
(build_nuttyfi32_complete_auto_final.py lines 403 to 440).  The on-disk
state is passed explicitly: outputZip is the byte content of the built
archive when it exists, jsonOutput the previously written descriptor when
it exists, jsonTemplate the template when it exists.  The function raises
FileNotFoundError when the archive is missing, reads the existing
descriptor in preference to the template, raises when neither exists,
updates the five platform fields, and returns (updated json, checksum,
size).  The write of the JSON file is represented by returning the updated
document. -/
def update_json_with_zip_info (hexDigest : List Nat → List Char)
    (outputZip : Option (List Nat)) (jsonOutput jsonTemplate : Option Json) :
    Except String (Json × String × String) :=
  match outputZip with
  | none => Except.error "ZIP file not found"
  | some fileBytes =>
      let checksum := calculate_sha256 hexDigest fileBytes
      let size := toString fileBytes.length
      let data? : Except String Json :=
        match jsonOutput with
        | some d => Except.ok d
        | none =>
            match jsonTemplate with
            | some t => Except.ok t
            | none => Except.error "Neither JSON_OUTPUT nor JSON_TEMPLATE found"
      match data? with
      | Except.error e => Except.error e
      | Except.ok data =>
          match updatePlatform0 data (setPlatformFields checksum size) with
          | none => Except.error "KeyError"
          | some data' => Except.ok (data', checksum, size)

/-! ## Fingerprint engine -/

/-- Encoding of one (path, mtime, size) triple as the text
path ":" mtime ":" size, the argument of hasher.update in
calculate_bsp_hash and calculate_zip_hash.  Modification times are
modelled as natural numbers. -/
def encodeTriple (t : List Char × Nat × Nat) : List Char :=
  t.1 ++ [':'] ++ natChars t.2.1 ++ [':'] ++ natChars t.2.2

/-- The lexicographic tuple order used by Python list.sort() on
(str, number, number) triples. -/
def tripleLE (a b : List Char × Nat × Nat) : Prop :=
  a.1 < b.1 ∨ (a.1 = b.1 ∧ (a.2.1 < b.2.1 ∨ (a.2.1 = b.2.1 ∧ a.2.2 ≤ b.2.2)))

instance : DecidableRel tripleLE := fun a b => by
  unfold tripleLE; infer_instance

instance : IsTotal (List Char × Nat × Nat) tripleLE where
  total a b := by
    unfold tripleLE
    rcases lt_trichotomy a.1 b.1 with h | h | h
    · exact Or.inl (Or.inl h)
    · rcases lt_trichotomy a.2.1 b.2.1 with h2 | h2 | h2
      · exact Or.inl (Or.inr ⟨h, Or.inl h2⟩)
      · rcases Nat.le_total a.2.2 b.2.2 with h3 | h3
        · exact Or.inl (Or.inr ⟨h, Or.inr ⟨h2, h3⟩⟩)
        · exact Or.inr (Or.inr ⟨h.symm, Or.inr ⟨h2.symm, h3⟩⟩)
      · exact Or.inr (Or.inr ⟨h.symm, Or.inl h2⟩)
    · exact Or.inr (Or.inl h)

instance : IsTrans (List Char × Nat × Nat) tripleLE where
  trans a b c hab hbc := by
    unfold tripleLE at *
    rcases hab with h1 | ⟨e1, h1⟩
    · rcases hbc with h2 | ⟨e2, h2⟩
      · exact Or.inl (lt_trans h1 h2)
      · exact Or.inl (e2 ▸ h1)
    · rcases hbc with h2 | ⟨e2, h2⟩
      · exact Or.inl (e1 ▸ h2)
      · refine Or.inr ⟨e1.trans e2, ?_⟩
        rcases h1 with h1 | ⟨f1, h1⟩
        · rcases h2 with h2 | ⟨f2, h2⟩
          · exact Or.inl (lt_trans h1 h2)
          · exact Or.inl (f2 ▸ h1)
        · rcases h2 with h2 | ⟨f2, h2⟩
          · exact Or.inl (f1 ▸ h2)
          · exact Or.inr ⟨f1.trans f2, le_trans h1 h2⟩

instance : IsAntisymm (List Char × Nat × Nat) tripleLE where
  antisymm a b hab hba := by
    unfold tripleLE at *
    rcases hab with h1 | ⟨e1, h1⟩
    · rcases hba with h2 | ⟨e2, h2⟩
      · exact absurd (lt_trans h1 h2) (lt_irrefl a.1)
      · exact absurd h1 (e2 ▸ lt_irrefl b.1)
    · rcases hba with h2 | ⟨e2, h2⟩
      · exact absurd h2 (e1 ▸ lt_irrefl a.1)
      · rcases h1 with h1 | ⟨f1, h1⟩
        · rcases h2 with h2 | ⟨f2, h2⟩
          · exact absurd (lt_trans h1 h2) (lt_irrefl a.2.1)
          · exact absurd h1 (f2 ▸ lt_irrefl b.2.1)
        · rcases h2 with h2 | ⟨f2, h2⟩
          · exact absurd h2 (f1 ▸ lt_irrefl a.2.1)
          · have : a.2.2 = b.2.2 := le_antisymm h1 h2
            rcases a with ⟨a1, a2, a3⟩
            rcases b with ⟨b1, b2, b3⟩
            simp only at e1 f1 this
            rw [e1, f1, this]

/-- Models file_info.sort() in calculate_bsp_hash (build_and_push_complete.py
line 79) and calculate_zip_hash (build_nuttyfi32_complete_auto_final.py
line 119). -/
def sortTriples (l : List (List Char × Nat × Nat)) :
    List (List Char × Nat × Nat) :=
  List.insertionSort tripleLE l

/-- The byte stream fed to the hasher: the encodings of the sorted
triples, concatenated (hasher.update is called once per triple, which
hashes the concatenation). -/
def foldInput (l : List (List Char × Nat × Nat)) : List Char :=
  List.flatten ((sortTriples l).map encodeTriple)

/-- Models calculate_bsp_hash (build_and_push_complete.py lines 61 to 85):
the directory-mode fingerprint.  The os.walk enumeration of non-hidden
files is abstracted into the fileInfo argument, the list of
(relative-path, mtime, size) triples in whatever order the walk yields
them; the function sorts them and hashes the concatenated encodings.
hexDigest is the abstract hashlib.sha256(...).hexdigest(). -/
def calculate_bsp_hash (hexDigest : List Char → List Char)
    (fileInfo : List (List Char × Nat × Nat)) : List Char :=
  hexDigest (foldInput fileInfo)

/-- Models calculate_zip_hash (build_nuttyfi32_complete_auto_final.py
lines 104 to 127): the archive-mode fingerprint over (name, size, crc)
entries.  zipFile is none when the file does not exist, some none when
opening or reading it raises (the except branch), and some (some infos)
when it is readable; hidden entry names are filtered out before sorting. -/
def calculate_zip_hash (hexDigest : List Char → List Char)
    (zipFile : Option (Option (List (List Char × Nat × Nat)))) :
    Option (List Char) :=
  match zipFile with
  | none => none
  | some none => none
  | some (some infos) =>
      some (calculate_bsp_hash hexDigest
        (infos.filter (fun i => !pyStartsWith i.1 ['.'])))

/-- The on-disk state read by check_if_zip_needs_update in
build_nuttyfi32_complete_auto_final.py: whether the output archive
exists, the release archive (absent, unreadable, or its entry triples),
whether the local BSP source folder exists, and the stored fingerprint
file (absent, unreadable, or its content). -/
structure AutoFinalState where
  outputZipExists : Bool
  releaseZip : Option (Option (List (List Char × Nat × Nat)))
  bspSourceExists : Bool
  storedHash : Option (Option (List Char))

/-- Models check_if_zip_needs_update
(build_nuttyfi32_complete_auto_final.py lines 129 to 165): true when the
output archive is missing; else computes the release-archive fingerprint
(or returns true when only the local folder exists, or raises when
neither source exists); then compares with the stored fingerprint,
treating an absent or unreadable stored fingerprint as a forced
rebuild. -/
def check_if_zip_needs_update (hexDigest : List Char → List Char)
    (st : AutoFinalState) : Except String Bool :=
  if st.outputZipExists = false then Except.ok true
  else
    match st.releaseZip with
    | some rz =>
        let sourceHash := calculate_zip_hash hexDigest (some rz)
        match st.storedHash with
        | some (some stored) =>
            if sourceHash = some stored then Except.ok false else Except.ok true
        | some none => Except.ok true
        | none => Except.ok true
    | none =>
        if st.bspSourceExists = true then Except.ok true
        else Except.error
          "Neither esp32-1.0.6.zip nor arduino-esp32-master found. Cannot continue."

/-- The on-disk state read by check_if_zip_needs_update in
build_and_push_complete.py: whether the output archive exists, the
enumerated (relative-path, mtime, size) triples of the BSP source, and
the stored fingerprint file. -/
structure PushCompleteState where
  outputZipExists : Bool
  bspFileInfo : List (List Char × Nat × Nat)
  storedHash : Option (Option (List Char))

/-- Models check_if_zip_needs_update (build_and_push_complete.py lines 87
to 114): true when the output archive is missing; else compares the
current BSP fingerprint with the stored one, treating an absent or
unreadable stored fingerprint as a forced rebuild. -/
def check_if_zip_needs_update_complete (hexDigest : List Char → List Char)
    (st : PushCompleteState) : Bool :=
  if st.outputZipExists = false then true
  else
    let currentHash := calculate_bsp_hash hexDigest st.bspFileInfo
    match st.storedHash with
    | some (some stored) => if currentHash = stored then false else true
    | some none => true
    | none => true

/-! ## Archive builder -/

/-- A file-system tree: named files with byte content, and named
directories with children. -/
inductive FsTree where
  | file (name : List Char) (content : List Nat)
  | dir (name : List Char) (children : List FsTree)

/-- Hidden names begin with a dot. -/
def isHiddenName (s : List Char) : Bool := pyStartsWith s ['.']

/-- The archive entries contributed by the files directly in a
directory, in listing order, skipping hidden file names; pre is the list
of path components above them.  Models the inner loop of create_zip
(build_nuttyfi32_complete_auto_final.py lines 377 to 388): entry names
are the components joined with a slash in the source. -/
def fileEntriesOf (pre : List (List Char)) (children : List FsTree) :
    List (List (List Char) × List Nat) :=
  children.filterMap (fun t =>
    match t with
    | FsTree.file n c => if isHiddenName n then none else some (pre ++ [n], c)
    | FsTree.dir _ _ => none)

/-- The archive entries contributed by the non-hidden subdirectories of a
directory: os.walk descends top-down, yielding each subdirectory's own
files first and then its subdirectories, and prunes hidden directory
names before descending (dirs[:] = filter). -/
def subdirEntries (pre : List (List Char)) :
    List FsTree → List (List (List Char) × List Nat)
  | [] => []
  | FsTree.file _ _ :: ts => subdirEntries pre ts
  | FsTree.dir n cs :: ts =>
      (if isHiddenName n then []
       else fileEntriesOf (pre ++ [n]) cs ++ subdirEntries (pre ++ [n]) cs)
      ++ subdirEntries pre ts

/-- Models create_zip (build_nuttyfi32_complete_auto_final.py lines 363
to 401), wrapped mode: every entry path is the root folder name followed
by the path of the file relative to the source directory, hidden files
skipped and hidden directories pruned.  The deletion of a pre-existing
archive and the fingerprint save are I/O around this entry computation. -/
def create_zip_entries (rootFolderName : List Char) (children : List FsTree) :
    List (List (List Char) × List Nat) :=
  fileEntriesOf [rootFolderName] children ++ subdirEntries [rootFolderName] children

/-- The entries contributed by the files directly in a directory for the
build_nuttyfi32_package.py variant of create_zip (lines 173 to 193),
which does not filter hidden file names. -/
def fileEntriesAll (pre : List (List Char)) (children : List FsTree) :
    List (List (List Char) × List Nat) :=
  children.filterMap (fun t =>
    match t with
    | FsTree.file n c => some (pre ++ [n], c)
    | FsTree.dir _ _ => none)

/-- Subdirectory walk of the build_nuttyfi32_package.py variant: hidden
directories are pruned, but files are taken unfiltered. -/
def subdirEntriesPkg (pre : List (List Char)) :
    List FsTree → List (List (List Char) × List Nat)
  | [] => []
  | FsTree.file _ _ :: ts => subdirEntriesPkg pre ts
  | FsTree.dir n cs :: ts =>
      (if isHiddenName n then []
       else fileEntriesAll (pre ++ [n]) cs ++ subdirEntriesPkg (pre ++ [n]) cs)
      ++ subdirEntriesPkg pre ts

/-- Models create_zip (build_nuttyfi32_package.py lines 173 to 193), flat
mode: entry paths are relative to the source directory with no wrapping
root component; hidden directories are pruned but hidden files are not
skipped. -/
def create_zip_package (children : List FsTree) :
    List (List (List Char) × List Nat) :=
  fileEntriesAll [] children ++ subdirEntriesPkg [] children

/-! ## Section transformer -/

/-- The anchor line of the ESP32 board section. -/
def anchorChars : List Char := "esp32.name=ESP32 Dev Module".data

/-- The old key prefix. -/
def esp32Dot : List Char := "esp32.".data

/-- The new key prefix. -/
def nuttyfi32Dot : List Char := "nuttyfi32.".data

/-- The boundary test of the first scan in rename_esp32_to_nuttyfi32
(build_nuttyfi32_complete_auto_final.py lines 318 to 321): a stripped
line that is non-empty, does not start with the old key prefix, is not a
comment, is not empty (the source repeats the test), and is not a
menu-family line of the old key. -/
def isBoundaryLine (l : List Char) : Bool :=
  !(pyStrip l == []) && !pyStartsWith (pyStrip l) esp32Dot &&
    !pyStartsWith (pyStrip l) ['#'] && !(pyStrip l == []) &&
    !pyStartsWith (pyStrip l) "esp32.menu.".data

/-- The fallback boundary test of the second scan (lines 327 to 331): a
stripped line containing ".name=" that does not start with the old key
prefix and is not a comment. -/
def isNextBoardLine (l : List Char) : Bool :=
  containsChars (pyStrip l) ".name=".data &&
    !pyStartsWith (pyStrip l) esp32Dot && !pyStartsWith (pyStrip l) ['#']

/-- First index satisfying a test, scanning left to right. -/
def findIdxA {α : Type} (p : α → Bool) : List α → Option Nat
  | [] => none
  | x :: xs => if p x then some 0 else (findIdxA p xs).map (fun i => i + 1)

/-- The separator comment of the inserted banner (lines 339 and 341). -/
def bannerSepChars : List Char :=
  "##############################################################".data

/-- The banner block prepended to the new section (lines 337 to 342):
blank line, separator, title comment naming the new key, separator,
blank line. -/
def bannerBlock : List (List Char) :=
  [[], bannerSepChars, "# nuttyfi32 Dev Module".data, bannerSepChars, []]

/-- The per-line rewriting of the extracted section (lines 344 to 349):
a line whose stripped form starts with the old key prefix has its first
occurrence of the prefix replaced by the new one; blank and comment
lines are copied verbatim; any other line is dropped. -/
def sectionLineTransform (l : List Char) : Option (List Char) :=
  if pyStartsWith (pyStrip l) esp32Dot then
    some (replaceFirstChars l esp32Dot nuttyfi32Dot)
  else if pyStrip l == [] || pyStartsWith (pyStrip l) ['#'] then some l
  else none

/-- Models the boards.txt branch of rename_esp32_to_nuttyfi32
(build_nuttyfi32_complete_auto_final.py lines 309 to 355), on the list
of lines (the source splits the file content on newlines before this
logic and joins it again after).  Finds the first line whose stripped
form equals the anchor; if none, the content is returned unchanged.
Otherwise the section end is the first subsequent boundary line, else
the first subsequent foreign ".name=" line, else the end of file; the
lines from the anchor up to the end are extracted, rewritten, prefixed
with the banner, and spliced in immediately after the section end. -/
def rename_boards_lines (lines : List (List Char)) : List (List Char) :=
  match findIdxA (fun l => pyStrip l == anchorChars) lines with
  | none => lines
  | some start =>
      let rest := lines.drop (start + 1)
      let endIdx :=
        match findIdxA isBoundaryLine rest with
        | some k => start + 1 + k
        | none =>
            match findIdxA isNextBoardLine rest with
            | some k => start + 1 + k
            | none => lines.length
      let sect := (lines.drop start).take (endIdx - start)
      lines.take endIdx ++ (bannerBlock ++ sect.filterMap sectionLineTransform)
        ++ lines.drop endIdx

/-- The expected shape of a rewritten section line: the section
transformer applied to a line that is an old-key line, a blank line or a
comment line. -/
def renameSectionLine (l : List Char) : List Char :=
  if pyStartsWith (pyStrip l) esp32Dot then replaceFirstChars l esp32Dot nuttyfi32Dot
  else l

/-- The file update step around the boards.txt branch (lines 357 to
361): the new content is written back only when it differs from the
original.  Returns the resulting lines and whether a write happened. -/
def update_boards_file (lines : List (List Char)) : List (List Char) × Bool :=
  let out := rename_boards_lines lines
  (out, !(out == lines))

/-! ## Publish workflow -/

/-- The git commands issued by the automation, abstracted from the
subprocess invocations. -/
inductive GitCmd where
  | configPostBuffer : GitCmd
  | configTimeout : GitCmd
  | remoteSetUrl : GitCmd
  | addPath (p : String) : GitCmd
  | diffCached : GitCmd
  | commit (msg : String) : GitCmd
  | push : GitCmd
  | rebaseAbort : GitCmd
  | fetch : GitCmd
  | pullRebase : GitCmd
deriving DecidableEq, Repr

/-- The state read by push_bsp_to_github
(build_nuttyfi32_complete_auto_final.py lines 442 to 563): the stored
token, whether the descriptor file exists, the names staged by the add
loops (the file-copy loop and the per-item and script add loops are
abstracted into this list), the stdout of git diff --cached --name-only,
and the file count reported by the copy loop. -/
structure PushState where
  token : Option String
  jsonOutputExists : Bool
  rootAddItems : List String
  stagedOutput : List Char
  fileCount : Nat

/-- Models lines 540 to 542: result.stdout.strip().split(newline),
keeping only entries with non-blank strip. -/
def staged_files (stagedOutput : List Char) : List (List Char) :=
  (splitNl (pyStrip stagedOutput)).filter (fun f => !(pyStrip f == []))

/-- The generated commit message (line 551), embedding the version. -/
def commitMessage : String := "Update nuttyfi32 BSP v" ++ VERSION ++ " - auto build"

/-- The git commands issued by push_bsp_to_github before the staged-diff
check: configuration, remote URL update, the descriptor add, the add
loops, and the diff itself. -/
def preTrace (st : PushState) : List GitCmd :=
  [GitCmd.configPostBuffer, GitCmd.configTimeout, GitCmd.remoteSetUrl] ++
    (if st.jsonOutputExists then [GitCmd.addPath "package_nuttyfi32_index.json"]
     else []) ++
    st.rootAddItems.map GitCmd.addPath ++ [GitCmd.diffCached]

/-- Models push_bsp_to_github (build_nuttyfi32_complete_auto_final.py
lines 442 to 563): raises when no token is stored; otherwise runs the
configuration and add commands, checks the staged diff, and either
returns the file count with no further git command (the no-op outcome,
lines 544 to 546) or commits with the generated message and pushes.
The returned list is the trace of git commands executed. -/
def push_bsp_to_github (st : PushState) : Except String (Nat × List GitCmd) :=
  match st.token with
  | none => Except.error "Token not found in .github_token file!"
  | some _ =>
      if (staged_files st.stagedOutput).isEmpty then
        Except.ok (st.fileCount, preTrace st)
      else
        Except.ok (st.fileCount,
          preTrace st ++ [GitCmd.commit commitMessage, GitCmd.push])

/-- The repository-and-remote state read by the sync phase. -/
structure GitEnv where
  rebaseMarkerPresent : Bool
  rebaseAbortOk : Bool
  fetchOk : Bool
  pullRebaseOk : Bool

/-- Models ensure_git_ready (build_nuttyfi32_complete_auto_final.py lines
51 to 57): when a rebase-apply or rebase-merge marker exists, run git
rebase --abort with allow_failure=True; its outcome is ignored, so the
command list does not depend on rebaseAbortOk. -/
def ensure_git_ready (env : GitEnv) : List GitCmd :=
  if env.rebaseMarkerPresent then [GitCmd.rebaseAbort] else []

/-- Whether an interrupted-rebase marker is still present after
ensure_git_ready: the abort is best-effort, so a failed abort leaves the
marker in place. -/
def markerAfterEnsure (env : GitEnv) : Bool :=
  env.rebaseMarkerPresent && !env.rebaseAbortOk

/-- Models sync_with_remote (lines 59 to 71): fetch raises on failure
(allow_failure defaults to False); pull --rebase is run with
allow_failure=True and its returncode checked, raising a RuntimeError
that asks for manual conflict resolution.  Returns the executed commands
and the raised error, if any. -/
def sync_with_remote (env : GitEnv) : List GitCmd × Option String :=
  if env.fetchOk = false then
    ([GitCmd.fetch], some "git fetch origin Master failed")
  else if env.pullRebaseOk = false then
    ([GitCmd.fetch, GitCmd.pullRebase],
      some "git pull --rebase failed. Resolve conflicts manually and rerun.")
  else ([GitCmd.fetch, GitCmd.pullRebase], none)

/-- Models the git-visible behaviour of main()
(build_nuttyfi32_complete_auto_final.py lines 586 to 644): Task 1 runs
ensure_git_ready then sync_with_remote; an exception there ends the run
(the except branch reports and no later task executes).  The build tasks
issue no git commands; Task 7 runs push_bsp_to_github.  Returns the
trace of executed git commands and the raised error, if any. -/
def autoFinalMain (env : GitEnv) (st : PushState) : List GitCmd × Option String :=
  let t0 := ensure_git_ready env
  let s := sync_with_remote env
  match s.2 with
  | some e => (t0 ++ s.1, some e)
  | none =>
      match push_bsp_to_github st with
      | Except.error e => (t0 ++ s.1, some e)
      | Except.ok r => (t0 ++ s.1 ++ r.2, none)

/-- Proof auxiliary: the numeric value of a most-significant-first list
of decimal digit characters; inverse of the decimal printer. -/
def decodeDigits (l : List Char) : Nat :=
  l.foldl (fun acc c => acc * 10 + (c.toNat - 48)) 0

/-! ## Theorems -/

/-- C10: check_if_zip_needs_update returns true whenever the output
archive is missing, in both script variants, regardless of every other
component of the state (release archive, BSP source, stored fingerprint),
so no stored-fingerprint read and no source-fingerprint computation can
suppress the rebuild. -/
theorem rebuild_forced_when_artifact_missing
    (hexDigest : List Char → List Char)
    (st : AutoFinalState) (st2 : PushCompleteState)
    (h : st.outputZipExists = false) (h2 : st2.outputZipExists = false) :
    check_if_zip_needs_update hexDigest st = Except.ok true ∧
    check_if_zip_needs_update_complete hexDigest st2 = true := by
  unfold check_if_zip_needs_update check_if_zip_needs_update_complete
  rw [h, h2]
  simp

/-- C10 witness: even with a matching stored fingerprint and no readable
source at all, a missing output archive forces a rebuild. -/
theorem rebuild_forced_witness :
    check_if_zip_needs_update (fun d => d)
      { outputZipExists := false, releaseZip := none, bspSourceExists := false,
        storedHash := some (some "deadbeef".data) } = Except.ok true ∧
    check_if_zip_needs_update_complete (fun d => d)
      { outputZipExists := false, bspFileInfo := [], storedHash := some none } =
      true :=
  rebuild_forced_when_artifact_missing (fun d => d) _ _ rfl rfl

/-- C3: with the output archive present and the release archive on disk,
the rebuild check returns false exactly when a stored fingerprint exists,
is readable and equals the freshly computed source fingerprint; an
absent or unreadable stored fingerprint yields true rather than an
exception, and no error is ever raised in this configuration. -/
theorem rebuild_gating (hexDigest : List Char → List Char)
    (st : AutoFinalState) (rz : Option (List (List Char × Nat × Nat)))
    (hzip : st.outputZipExists = true) (hrel : st.releaseZip = some rz) :
    (check_if_zip_needs_update hexDigest st = Except.ok false ↔
      ∃ h, st.storedHash = some (some h) ∧
        calculate_zip_hash hexDigest (some rz) = some h) ∧
    (st.storedHash = some none →
      check_if_zip_needs_update hexDigest st = Except.ok true) ∧
    (st.storedHash = none →
      check_if_zip_needs_update hexDigest st = Except.ok true) ∧
    (∀ e, check_if_zip_needs_update hexDigest st ≠ Except.error e) := by
  unfold check_if_zip_needs_update
  rw [hzip, hrel]
  simp only [Bool.true_eq_false, if_false]
  rcases hs : st.storedHash with _ | inner
  · simp
  · rcases inner with _ | stored
    · simp
    · by_cases he : calculate_zip_hash hexDigest (some rz) = some stored
      · simp [he]
      · simp only [he, if_false]
        constructor
        · constructor
          · intro hcontra
            exact absurd hcontra (by simp)
          · rintro ⟨h, hh, hcalc⟩
            cases hh
            exact absurd hcalc he
        · simp

/-- C3 witness: a concrete state with a readable stored fingerprint equal
to the computed one yields false (no rebuild). -/
theorem rebuild_gating_witness :
    check_if_zip_needs_update (fun d => d)
      { outputZipExists := true, releaseZip := some (some []),
        bspSourceExists := true, storedHash := some (some []) } =
      Except.ok false :=
  (rebuild_gating (fun d => d) _ (some []) rfl rfl).1.mpr ⟨[], rfl, rfl⟩

/-- C6: with a stored token, an empty staged diff makes
push_bsp_to_github return the file count as a success with no commit and
no push command executed; a non-empty staged-file list makes it commit
with the generated message, which embeds the version string, before
pushing. -/
theorem publish_noop (st : PushState) (tok : String)
    (htok : st.token = some tok) :
    (pyStrip st.stagedOutput = [] →
      push_bsp_to_github st = Except.ok (st.fileCount, preTrace st) ∧
      (∀ msg, GitCmd.commit msg ∉ preTrace st) ∧ GitCmd.push ∉ preTrace st) ∧
    (staged_files st.stagedOutput ≠ [] →
      push_bsp_to_github st =
        Except.ok (st.fileCount,
          preTrace st ++ [GitCmd.commit commitMessage, GitCmd.push]) ∧
      containsChars commitMessage.data VERSION.data = true) := by
  constructor
  · intro hempty
    have hsf : staged_files st.stagedOutput = [] := by
      unfold staged_files
      rw [hempty]
      decide
    refine ⟨?_, ?_, ?_⟩
    · unfold push_bsp_to_github
      rw [htok, hsf]
      rfl
    · intro msg
      unfold preTrace
      cases st.jsonOutputExists <;> simp [List.mem_map]
    · unfold preTrace
      cases st.jsonOutputExists <;> simp [List.mem_map]
  · intro hne
    have hsf : (staged_files st.stagedOutput).isEmpty = false := by
      rcases h : staged_files st.stagedOutput with _ | ⟨a, l⟩
      · exact absurd h hne
      · rfl
    constructor
    · unfold push_bsp_to_github
      rw [htok, hsf]
      rfl
    · decide

/-- C6 witness: a state with an empty diff output returns the no-op
success, and a state with one staged file commits and pushes. -/
theorem publish_noop_witness :
    push_bsp_to_github
      { token := some "tok", jsonOutputExists := false, rootAddItems := [],
        stagedOutput := [], fileCount := 3 } =
      Except.ok (3, preTrace
        { token := some "tok", jsonOutputExists := false, rootAddItems := [],
          stagedOutput := [], fileCount := 3 }) ∧
    push_bsp_to_github
      { token := some "tok", jsonOutputExists := false, rootAddItems := [],
        stagedOutput := "boards.txt".data, fileCount := 3 } =
      Except.ok (3, preTrace
        { token := some "tok", jsonOutputExists := false, rootAddItems := [],
          stagedOutput := "boards.txt".data, fileCount := 3 } ++
        [GitCmd.commit commitMessage, GitCmd.push]) :=
  ⟨((publish_noop _ "tok" rfl).1 (by decide)).1,
   ((publish_noop _ "tok" rfl).2 (by decide)).1⟩

/-- C8: in the automated main workflow, a present rebase marker makes the
best-effort abort the first executed git command; the whole run is
independent of whether that abort succeeds; a pull-rebase failure raises
an error and halts the run before any staging, commit or push command;
and, given that git refuses to pull-rebase while an interrupted rebase is
still present, a push is only ever executed with no interrupted-rebase
marker left. -/
theorem sync_before_push (env : GitEnv) (st : PushState)
    (hgit : markerAfterEnsure env = true → env.pullRebaseOk = false) :
    (env.rebaseMarkerPresent = true →
      (autoFinalMain env st).1.head? = some GitCmd.rebaseAbort) ∧
    (∀ b, autoFinalMain
      { rebaseMarkerPresent := env.rebaseMarkerPresent, rebaseAbortOk := b,
        fetchOk := env.fetchOk, pullRebaseOk := env.pullRebaseOk } st =
      autoFinalMain env st) ∧
    (env.pullRebaseOk = false →
      (autoFinalMain env st).2.isSome = true ∧
      (∀ msg, GitCmd.commit msg ∉ (autoFinalMain env st).1) ∧
      GitCmd.push ∉ (autoFinalMain env st).1 ∧
      (∀ p, GitCmd.addPath p ∉ (autoFinalMain env st).1) ∧
      GitCmd.diffCached ∉ (autoFinalMain env st).1) ∧
    (GitCmd.push ∈ (autoFinalMain env st).1 → markerAfterEnsure env = false) := by
  rcases env with ⟨m, a, f, p⟩
  refine ⟨?_, ?_, ?_, ?_⟩
  · intro hm
    subst hm
    cases hpb : push_bsp_to_github st <;> cases f <;> cases p <;>
      simp [autoFinalMain, sync_with_remote, ensure_git_ready, hpb]
  · intro b
    rfl
  · intro hp
    subst hp
    cases f <;> cases m <;>
      simp [autoFinalMain, sync_with_remote, ensure_git_ready]
  · intro hpush
    by_cases hp : p = false
    · exfalso
      subst hp
      revert hpush
      cases f <;> cases m <;>
        simp [autoFinalMain, sync_with_remote, ensure_git_ready]
    · have hp' : p = true := by
        cases p
        · exact absurd rfl hp
        · rfl
      simp only [markerAfterEnsure] at hgit ⊢
      cases m
      · rfl
      · cases a
        · exfalso
          have := hgit rfl
          rw [hp'] at this
          exact Bool.true_eq_false.mp this
        · rfl

/-- C8 witness: with a marker present, a failing abort and a failing
pull-rebase, the abort runs first and the run halts with an error. -/
theorem sync_before_push_witness :
    (autoFinalMain
      { rebaseMarkerPresent := true, rebaseAbortOk := false, fetchOk := true,
        pullRebaseOk := false }
      { token := some "tok", jsonOutputExists := false, rootAddItems := [],
        stagedOutput := [], fileCount := 0 }).1.head? =
      some GitCmd.rebaseAbort ∧
    (autoFinalMain
      { rebaseMarkerPresent := true, rebaseAbortOk := false, fetchOk := true,
        pullRebaseOk := false }
      { token := some "tok", jsonOutputExists := false, rootAddItems := [],
        stagedOutput := [], fileCount := 0 }).2.isSome = true :=
  ⟨(sync_before_push _ _ (fun _ => rfl)).1 rfl,
   ((sync_before_push _ _ (fun _ => rfl)).2.2.1 rfl).1⟩

/-- Reading back the key just assigned returns the assigned value. -/
theorem getKey_setKey_self (l : List (String × Json)) (k : String) (v : Json) :
    Json.getKey (Json.setKey l k v) k = some v := by
  induction l with
  | nil => simp [Json.setKey, Json.getKey]
  | cons h t ih =>
      rcases h with ⟨k', v'⟩
      by_cases hk : k' = k
      · subst hk
        simp [Json.setKey, Json.getKey]
      · simp [Json.setKey, Json.getKey, hk, ih]

/-- Assigning one key leaves every other key unchanged. -/
theorem getKey_setKey_ne (l : List (String × Json)) (k k' : String) (v : Json)
    (h : k' ≠ k) :
    Json.getKey (Json.setKey l k v) k' = Json.getKey l k' := by
  have h2 : ¬ k = k' := fun he => h (Eq.symm he)
  induction l with
  | nil =>
      simp [Json.setKey, Json.getKey, h2]
  | cons hd t ih =>
      rcases hd with ⟨a, b⟩
      by_cases ha : a = k
      · subst ha
        have h2 : ¬ a = k' := fun he => h (Eq.symm he)
        simp [Json.setKey, Json.getKey, h2, fun he => h (Eq.symm he)]
      · by_cases ha' : a = k'
        · subst ha'
          simp [Json.setKey, Json.getKey, ha]
        · simp [Json.setKey, Json.getKey, ha, ha', ih]

/-- Reduction of the synchronizer when the archive and a document to
update are present: the result is determined by the platform-path
navigation.  Holds by definitional unfolding. -/
theorem update_json_red (hexDigest : List Nat → List Char)
    (fileBytes : List Nat) (d : Json) (jsonOutput jsonTemplate : Option Json)
    (hdoc : (match jsonOutput with
      | some x => some x
      | none => jsonTemplate) = some d) :
    update_json_with_zip_info hexDigest (some fileBytes) jsonOutput
      jsonTemplate =
      (match updatePlatform0 d (setPlatformFields
          (calculate_sha256 hexDigest fileBytes)
          (toString fileBytes.length)) with
        | none => Except.error "KeyError"
        | some data' => Except.ok (data',
            calculate_sha256 hexDigest fileBytes,
            toString fileBytes.length)) := by
  rcases jsonOutput with _ | d0
  · rcases jsonTemplate with _ | t0
    · exact absurd hdoc (by simp)
    · have ht : t0 = d := by
        simpa using hdoc
      subst ht
      rfl
  · have hd0 : d0 = d := by
      simpa using hdoc
    subst hd0
    rfl

/-- Reduction of the platform-path navigation when the path exists. -/
theorem updatePlatform0_obj (top pkg0 plat0 : List (String × Json))
    (pkgs plats : List Json)
    (f : List (String × Json) → List (String × Json))
    (htop : Json.getKey top "packages" = some (Json.arr (Json.obj pkg0 :: pkgs)))
    (hpkg : Json.getKey pkg0 "platforms" =
      some (Json.arr (Json.obj plat0 :: plats))) :
    updatePlatform0 (Json.obj top) f =
      some (Json.obj (Json.setKey top "packages"
        (Json.arr (Json.obj (Json.setKey pkg0 "platforms"
          (Json.arr (Json.obj (f plat0) :: plats))) :: pkgs)))) := by
  simp only [updatePlatform0, htop, hpkg]

/-- C1 counterexample: with the built archive present but neither a
previously written descriptor nor a template on disk, the synchronizer
raises a not-found error instead of synthesizing a minimal descriptor. -/
theorem descriptor_synthesis_counterexample :
    update_json_with_zip_info (fun _ => []) (some [0]) none none =
      Except.error "Neither JSON_OUTPUT nor JSON_TEMPLATE found" := rfl

/-- C1 amended: when no previously written descriptor exists, the
synchronizer falls back to the template when one exists and performs the
targeted platform update on it, returning (checksum, size) without
failing; when neither a descriptor nor a template exists it raises a
not-found error rather than synthesizing a minimal descriptor. -/
theorem descriptor_synthesis (hexDigest : List Nat → List Char)
    (fileBytes : List Nat) (t d' : Json)
    (hupd : updatePlatform0 t
      (setPlatformFields (calculate_sha256 hexDigest fileBytes)
        (toString fileBytes.length)) = some d') :
    update_json_with_zip_info hexDigest (some fileBytes) none (some t) =
      Except.ok (d', calculate_sha256 hexDigest fileBytes,
        toString fileBytes.length) ∧
    (∀ (hexD2 : List Nat → List Char) (zip2 : List Nat),
      update_json_with_zip_info hexD2 (some zip2) none none =
        Except.error "Neither JSON_OUTPUT nor JSON_TEMPLATE found") := by
  constructor
  · rw [update_json_red hexDigest fileBytes t none (some t) rfl, hupd]
  · intro hexD2 zip2
    rfl

/-- C1 witness: a concrete template with the platform path is updated in
place of the missing descriptor and the call returns (checksum, size). -/
theorem descriptor_synthesis_witness :
    update_json_with_zip_info (fun _ => ['a', 'b']) (some [7, 7, 7]) none
      (some (Json.obj [("packages", Json.arr [Json.obj [("platforms",
        Json.arr [Json.obj []])]])])) =
      Except.ok (Json.obj [("packages", Json.arr [Json.obj [("platforms",
        Json.arr [Json.obj [("version", Json.str VERSION),
          ("url", Json.str downloadUrl),
          ("archiveFileName", Json.str archiveFileNameStr),
          ("checksum", Json.str "SHA-256:AB"),
          ("size", Json.str "3")]])]])], "AB", "3") :=
  (descriptor_synthesis (fun _ => ['a', 'b']) [7, 7, 7]
    (Json.obj [("packages", Json.arr [Json.obj [("platforms",
      Json.arr [Json.obj []])]])])
    (Json.obj [("packages", Json.arr [Json.obj [("platforms",
      Json.arr [Json.obj [("version", Json.str VERSION),
        ("url", Json.str downloadUrl),
        ("archiveFileName", Json.str archiveFileNameStr),
        ("checksum", Json.str "SHA-256:AB"),
        ("size", Json.str "3")]])]])]) rfl).1

/-- C2: for every descriptor whose packages[0].platforms[0] entry exists
and every archive byte content, the synchronizer returns the descriptor
in which exactly the five fields version, url, archiveFileName, checksum
and size of that platform entry are overwritten; the checksum field is
"SHA-256:" followed by the uppercased hex digest of the archive bytes and
the size field is the decimal byte count; every other key of the platform
object, every sibling platform and package entry, and every other key of
the package object and of the top-level object keep their previous
values. -/
theorem descriptor_field_isolation (hexDigest : List Nat → List Char)
    (fileBytes : List Nat) (top pkg0 plat0 : List (String × Json))
    (pkgs plats : List Json) (jsonTemplate : Option Json)
    (htop : Json.getKey top "packages" = some (Json.arr (Json.obj pkg0 :: pkgs)))
    (hpkg : Json.getKey pkg0 "platforms" =
      some (Json.arr (Json.obj plat0 :: plats))) :
    update_json_with_zip_info hexDigest (some fileBytes)
      (some (Json.obj top)) jsonTemplate =
      Except.ok (Json.obj (Json.setKey top "packages"
        (Json.arr (Json.obj (Json.setKey pkg0 "platforms"
          (Json.arr (Json.obj (setPlatformFields
              (calculate_sha256 hexDigest fileBytes)
              (toString fileBytes.length) plat0) :: plats))) :: pkgs))),
        calculate_sha256 hexDigest fileBytes, toString fileBytes.length) ∧
    Json.getKey (setPlatformFields (calculate_sha256 hexDigest fileBytes)
        (toString fileBytes.length) plat0) "checksum" =
      some (Json.str ("SHA-256:" ++
        String.mk (pyUpperChars (hexDigest fileBytes)))) ∧
    Json.getKey (setPlatformFields (calculate_sha256 hexDigest fileBytes)
        (toString fileBytes.length) plat0) "size" =
      some (Json.str (toString fileBytes.length)) ∧
    Json.getKey (setPlatformFields (calculate_sha256 hexDigest fileBytes)
        (toString fileBytes.length) plat0) "version" =
      some (Json.str VERSION) ∧
    Json.getKey (setPlatformFields (calculate_sha256 hexDigest fileBytes)
        (toString fileBytes.length) plat0) "url" =
      some (Json.str downloadUrl) ∧
    Json.getKey (setPlatformFields (calculate_sha256 hexDigest fileBytes)
        (toString fileBytes.length) plat0) "archiveFileName" =
      some (Json.str archiveFileNameStr) ∧
    (∀ k, k ≠ "version" → k ≠ "url" → k ≠ "archiveFileName" →
      k ≠ "checksum" → k ≠ "size" →
      Json.getKey (setPlatformFields (calculate_sha256 hexDigest fileBytes)
        (toString fileBytes.length) plat0) k = Json.getKey plat0 k) ∧
    (∀ (v : Json) (k : String), k ≠ "packages" →
      Json.getKey (Json.setKey top "packages" v) k = Json.getKey top k) ∧
    (∀ (v : Json) (k : String), k ≠ "platforms" →
      Json.getKey (Json.setKey pkg0 "platforms" v) k = Json.getKey pkg0 k) := by
  refine ⟨?_, ?_, ?_, ?_, ?_, ?_, ?_, ?_, ?_⟩
  · rw [update_json_red hexDigest fileBytes (Json.obj top) (some (Json.obj top))
        jsonTemplate rfl,
      updatePlatform0_obj top pkg0 plat0 pkgs plats _ htop hpkg]
  · unfold setPlatformFields
    rw [getKey_setKey_ne _ _ _ _ (by decide), getKey_setKey_self]
    rfl
  · rw [setPlatformFields, getKey_setKey_self]
  · unfold setPlatformFields
    rw [getKey_setKey_ne _ _ _ _ (by decide),
      getKey_setKey_ne _ _ _ _ (by decide),
      getKey_setKey_ne _ _ _ _ (by decide),
      getKey_setKey_ne _ _ _ _ (by decide), getKey_setKey_self]
  · unfold setPlatformFields
    rw [getKey_setKey_ne _ _ _ _ (by decide),
      getKey_setKey_ne _ _ _ _ (by decide),
      getKey_setKey_ne _ _ _ _ (by decide), getKey_setKey_self]
  · unfold setPlatformFields
    rw [getKey_setKey_ne _ _ _ _ (by decide),
      getKey_setKey_ne _ _ _ _ (by decide), getKey_setKey_self]
  · intro k h1 h2 h3 h4 h5
    unfold setPlatformFields
    rw [getKey_setKey_ne _ _ _ _ h5, getKey_setKey_ne _ _ _ _ h4,
      getKey_setKey_ne _ _ _ _ h3, getKey_setKey_ne _ _ _ _ h2,
      getKey_setKey_ne _ _ _ _ h1]
  · intro v k hk
    exact getKey_setKey_ne _ _ _ _ hk
  · intro v k hk
    exact getKey_setKey_ne _ _ _ _ hk

/-- C2 witness: on a concrete descriptor with unrelated fields at every
level, the call overwrites the five platform fields and leaves the
unrelated boards field and the unrelated top-level field untouched. -/
theorem descriptor_field_isolation_witness :
    update_json_with_zip_info (fun _ => ['a', 'b']) (some [7, 7, 7])
      (some (Json.obj [("packages", Json.arr [Json.obj [("platforms",
          Json.arr [Json.obj [("boards", Json.str "esp32")]]),
          ("maintainer", Json.str "x")]]), ("extra", Json.num 1)])) none =
      Except.ok (Json.obj [("packages", Json.arr [Json.obj [("platforms",
          Json.arr [Json.obj [("boards", Json.str "esp32"),
            ("version", Json.str VERSION), ("url", Json.str downloadUrl),
            ("archiveFileName", Json.str archiveFileNameStr),
            ("checksum", Json.str "SHA-256:AB"), ("size", Json.str "3")]]),
          ("maintainer", Json.str "x")]]), ("extra", Json.num 1)],
        "AB", "3") ∧
    Json.getKey (setPlatformFields "AB" "3" [("boards", Json.str "esp32")])
      "boards" = some (Json.str "esp32") :=
  ⟨(descriptor_field_isolation (fun _ => ['a', 'b']) [7, 7, 7]
      [("packages", Json.arr [Json.obj [("platforms",
        Json.arr [Json.obj [("boards", Json.str "esp32")]]),
        ("maintainer", Json.str "x")]]), ("extra", Json.num 1)]
      [("platforms", Json.arr [Json.obj [("boards", Json.str "esp32")]]),
        ("maintainer", Json.str "x")]
      [("boards", Json.str "esp32")] [] [] none rfl rfl).1,
   (descriptor_field_isolation (fun _ => ['a', 'b']) [7, 7, 7]
      [("packages", Json.arr [Json.obj [("platforms",
        Json.arr [Json.obj [("boards", Json.str "esp32")]]),
        ("maintainer", Json.str "x")]]), ("extra", Json.num 1)]
      [("platforms", Json.arr [Json.obj [("boards", Json.str "esp32")]]),
        ("maintainer", Json.str "x")]
      [("boards", Json.str "esp32")] [] [] none rfl rfl).2.2.2.2.2.2.1
     "boards" (by decide) (by decide) (by decide) (by decide) (by decide)⟩

/-- A search over elements that all fail the test finds nothing. -/
theorem findIdxA_eq_none {α : Type} (p : α → Bool) (l : List α)
    (h : ∀ x ∈ l, p x = false) : findIdxA p l = none := by
  induction l with
  | nil => rfl
  | cons a as ih =>
      simp [findIdxA, h a (List.mem_cons_self a as),
        ih (fun x hx => h x (List.mem_cons_of_mem a hx))]

/-- The search finds the first satisfying element, after a run of
failing ones. -/
theorem findIdxA_first {α : Type} (p : α → Bool) (xs ys : List α) (y : α)
    (h : ∀ x ∈ xs, p x = false) (hy : p y = true) :
    findIdxA p (xs ++ y :: ys) = some xs.length := by
  induction xs with
  | nil => simp [findIdxA, hy]
  | cons a as ih =>
      simp [findIdxA, h a (List.mem_cons_self a as),
        ih (fun x hx => h x (List.mem_cons_of_mem a hx))]

/-- Dropping past an initial segment and one more element. -/
theorem drop_append_cons {α : Type} (xs ys : List α) (y : α) :
    (xs ++ y :: ys).drop (xs.length + 1) = ys := by
  induction xs with
  | nil => simp
  | cons a as ih => simp [ih]

/-- C9 counterexample: a line carrying the anchor text padded with a
leading blank is not exactly equal to the anchor, yet the transformer
still fires (the code compares stripped lines), so the output differs
from the input. -/
theorem anchor_exact_counterexample :
    (∀ l ∈ [" esp32.name=ESP32 Dev Module".data], l ≠ anchorChars) ∧
    rename_boards_lines [" esp32.name=ESP32 Dev Module".data] ≠
      [" esp32.name=ESP32 Dev Module".data] := by
  constructor
  · decide
  · decide

/-- C9 amended: if no line of the input, after stripping surrounding
whitespace, equals the anchor, the section transformer returns the input
unchanged and the boards file is not rewritten; this is a no-op, not an
error. -/
theorem anchor_noop_trimmed (lines : List (List Char))
    (h : ∀ l ∈ lines, pyStrip l ≠ anchorChars) :
    rename_boards_lines lines = lines ∧
    (update_boards_file lines).2 = false := by
  have hf : findIdxA (fun l => pyStrip l == anchorChars) lines = none := by
    refine findIdxA_eq_none _ _ (fun x hx => ?_)
    simpa using h x hx
  have h1 : rename_boards_lines lines = lines := by
    unfold rename_boards_lines
    rw [hf]
  refine ⟨h1, ?_⟩
  unfold update_boards_file
  simp [h1]

/-- C9 witness: boards text made of one foreign board line is returned
unchanged and unwritten. -/
theorem anchor_noop_witness :
    rename_boards_lines ["other.name=Some Board".data] =
      ["other.name=Some Board".data] ∧
    (update_boards_file ["other.name=Some Board".data]).2 = false :=
  anchor_noop_trimmed _ (by decide)

/-- A comment line does not start with the old key prefix. -/
theorem hash_not_esp32 (s : List Char) (h : pyStartsWith s ['#'] = true) :
    pyStartsWith s esp32Dot = false := by
  rcases s with _ | ⟨c, t⟩
  · exact absurd h (by decide)
  · have hc : c = '#' := by
      have := h
      simp [pyStartsWith, List.isPrefixOf] at this
      exact this.symm
    subst hc
    simp [pyStartsWith, esp32Dot, List.isPrefixOf]

/-- The rewritten section equals the per-line rename on sections made of
old-key lines, blank lines and comment lines. -/
theorem filterMap_section (body : List (List Char))
    (hbody : ∀ l ∈ body,
      (pyStartsWith l esp32Dot = true ∧
        pyStartsWith (pyStrip l) esp32Dot = true) ∨
      (pyStrip l == []) = true ∨ pyStartsWith (pyStrip l) ['#'] = true) :
    body.filterMap sectionLineTransform = body.map renameSectionLine := by
  induction body with
  | nil => rfl
  | cons a as ih =>
      have ha := hbody a (List.mem_cons_self a as)
      have ih' := ih (fun x hx => hbody x (List.mem_cons_of_mem a hx))
      rcases ha with ⟨_, h2⟩ | h2 | h2
      · simp [sectionLineTransform, renameSectionLine, h2, ih']
      · have hs : pyStrip a = [] := by
          simpa using h2
        have hx : pyStartsWith [] esp32Dot = false := by decide
        simp [sectionLineTransform, renameSectionLine, hs, hx, ih']
      · have hns : pyStartsWith (pyStrip a) esp32Dot = false :=
          hash_not_esp32 _ h2
        simp [sectionLineTransform, renameSectionLine, h2, hns, ih']

/-- C4: boards text made of an optional preamble without the anchor, the
anchor line, a body of old-key lines (menu or plain, with blank and
comment lines allowed), a terminating foreign ".name=" line and a tail,
is rewritten to contain the original section unchanged and, strictly
after it, the banner block followed by the same section lines with the
first occurrence of the old key prefix replaced by the new one (blank
and comment lines copied verbatim); the rest of the file is untouched. -/
theorem section_duplication
    (pre body post : List (List Char)) (foreign : List Char)
    (hpre : ∀ l ∈ pre, (pyStrip l == anchorChars) = false)
    (hbody : ∀ l ∈ body,
      (pyStartsWith l esp32Dot = true ∧
        pyStartsWith (pyStrip l) esp32Dot = true) ∨
      (pyStrip l == []) = true ∨ pyStartsWith (pyStrip l) ['#'] = true)
    (hf1 : (pyStrip foreign == []) = false)
    (hf2 : pyStartsWith (pyStrip foreign) esp32Dot = false)
    (hf3 : pyStartsWith (pyStrip foreign) ['#'] = false)
    (hf4 : pyStartsWith (pyStrip foreign) "esp32.menu.".data = false)
    (_hf5 : containsChars (pyStrip foreign) ".name=".data = true) :
    rename_boards_lines (pre ++ anchorChars :: (body ++ foreign :: post)) =
      (pre ++ anchorChars :: body) ++
        (bannerBlock ++ ((anchorChars :: body).map renameSectionLine)) ++
        (foreign :: post) := by
  have h1 : findIdxA (fun l => pyStrip l == anchorChars)
      (pre ++ anchorChars :: (body ++ foreign :: post)) = some pre.length :=
    findIdxA_first _ pre _ _ hpre (by decide)
  have hdrop1 : (pre ++ anchorChars :: (body ++ foreign :: post)).drop
      (pre.length + 1) = body ++ foreign :: post :=
    drop_append_cons _ _ _
  have hbnd : ∀ x ∈ body, isBoundaryLine x = false := by
    intro x hx
    rcases hbody x hx with ⟨_, h2⟩ | h2 | h2
    · simp [isBoundaryLine, h2]
    · simp [isBoundaryLine, h2]
    · simp [isBoundaryLine, h2]
  have hfb : isBoundaryLine foreign = true := by
    simp [isBoundaryLine, hf1, hf2, hf3, hf4]
  have h2 : findIdxA isBoundaryLine (body ++ foreign :: post) =
      some body.length :=
    findIdxA_first _ body _ _ hbnd hfb
  have hLsplit : pre ++ anchorChars :: (body ++ foreign :: post) =
      (pre ++ anchorChars :: body) ++ (foreign :: post) := by
    simp
  have hlen : (pre ++ anchorChars :: body).length =
      pre.length + 1 + body.length := by
    simp
    omega
  have htake : (pre ++ anchorChars :: (body ++ foreign :: post)).take
      (pre.length + 1 + body.length) = pre ++ anchorChars :: body := by
    rw [hLsplit, ← hlen, List.take_left]
  have hdropEnd : (pre ++ anchorChars :: (body ++ foreign :: post)).drop
      (pre.length + 1 + body.length) = foreign :: post := by
    rw [hLsplit, ← hlen, List.drop_left]
  have hdropStart : (pre ++ anchorChars :: (body ++ foreign :: post)).drop
      pre.length = anchorChars :: (body ++ foreign :: post) :=
    List.drop_left _ _
  have hsub : pre.length + 1 + body.length - pre.length = body.length + 1 := by
    omega
  have hsect : (anchorChars :: (body ++ foreign :: post)).take
      (body.length + 1) = anchorChars :: body := by
    rw [List.take_succ_cons]
    rw [List.take_left]
  have hfm : (anchorChars :: body).filterMap sectionLineTransform =
      (anchorChars :: body).map renameSectionLine := by
    refine filterMap_section _ (fun l hl => ?_)
    rcases List.mem_cons.mp hl with hl | hl
    · subst hl
      exact Or.inl ⟨by decide, by decide⟩
    · exact hbody l hl
  unfold rename_boards_lines
  rw [h1]
  simp only [hdrop1, h2]
  rw [htake, hdropEnd, hdropStart, hsub, hsect, hfm]

/-- C4 witness: a concrete section of one menu line and one plain line,
terminated by a foreign board, is duplicated with the renamed block
strictly after the original. -/
theorem section_duplication_witness :
    rename_boards_lines
      ["# header".data, anchorChars, "esp32.menu.mem.a=X".data,
        "esp32.upload.speed=921600".data, "wrover.name=Other".data,
        "wrover.x=1".data] =
      ["# header".data, anchorChars, "esp32.menu.mem.a=X".data,
        "esp32.upload.speed=921600".data] ++
        (bannerBlock ++
          (["nuttyfi32.name=ESP32 Dev Module".data,
            "nuttyfi32.menu.mem.a=X".data,
            "nuttyfi32.upload.speed=921600".data])) ++
        ["wrover.name=Other".data, "wrover.x=1".data] := by
  have h := section_duplication ["# header".data]
    ["esp32.menu.mem.a=X".data, "esp32.upload.speed=921600".data]
    ["wrover.x=1".data] "wrover.name=Other".data
    (by decide) (by decide) (by decide) (by decide) (by decide) (by decide)
    (by decide)
  exact h

/-- Every entry contributed by the files of one directory sits directly
under that directory and has a non-hidden file name. -/
theorem fileEntriesOf_shape (pre : List (List Char)) (children : List FsTree) :
    ∀ e ∈ fileEntriesOf pre children, ∃ n c, e = (pre ++ [n], c) ∧
      isHiddenName n = false := by
  intro e he
  simp only [fileEntriesOf, List.mem_filterMap] at he
  obtain ⟨t, _, hmap⟩ := he
  cases t with
  | file n c =>
      have hmap' : (if isHiddenName n = true then none
          else some (pre ++ [n], c)) = some e := hmap
      by_cases hn : isHiddenName n
      · rw [if_pos hn] at hmap'
        exact absurd hmap' (by simp)
      · rw [if_neg hn] at hmap'
        refine ⟨n, c, ?_, by simpa using hn⟩
        exact (Option.some.inj hmap').symm
  | dir n cs =>
      have hmap' : (none : Option (List (List Char) × List Nat)) = some e := hmap
      exact absurd hmap' (by simp)

/-- Every entry produced by the subdirectory walk sits strictly below
the given path and every path component added below it is non-hidden. -/
theorem subdirEntries_shape (pre : List (List Char)) (ts : List FsTree) :
    ∀ e ∈ subdirEntries pre ts, ∃ comps c, e = (pre ++ comps, c) ∧
      comps ≠ [] ∧ ∀ x ∈ comps, isHiddenName x = false := by
  induction pre, ts using subdirEntries.induct with
  | case1 pre =>
      intro e he
      simp [subdirEntries] at he
  | case2 pre name content ts ih =>
      intro e he
      rw [subdirEntries] at he
      exact ih e he
  | case3 pre n cs ts ih1 ih2 =>
      intro e he
      rw [subdirEntries] at he
      rcases List.mem_append.mp he with he1 | he2
      · by_cases hn : isHiddenName n
        · rw [if_pos hn] at he1
          simp at he1
        · rw [if_neg hn] at he1
          rcases List.mem_append.mp he1 with hf | hs
          · obtain ⟨m, c, heq, hm⟩ := fileEntriesOf_shape _ _ _ hf
            refine ⟨[n, m], c, by simp [heq], by simp, ?_⟩
            intro x hx
            rcases List.mem_cons.mp hx with hx | hx
            · subst hx
              simpa using hn
            · rcases List.mem_cons.mp hx with hx | hx
              · subst hx
                exact hm
              · exact absurd hx (List.not_mem_nil x)
          · obtain ⟨comps, c, heq, hne, hall⟩ := ih1 e hs
            refine ⟨n :: comps, c, by simp [heq], by simp, ?_⟩
            intro x hx
            rcases List.mem_cons.mp hx with hx | hx
            · subst hx
              simpa using hn
            · exact hall x hx
      · exact ih2 e he2

/-- C5 counterexample: the build_nuttyfi32_package.py archive builder
does not skip hidden files, so a tree with a hidden file yields an
archive entry whose path contains a hidden component. -/
theorem archive_hidden_file_counterexample :
    create_zip_package
      [FsTree.file ".secret".data [1], FsTree.file "a.txt".data [2]] =
      [([".secret".data], [1]), (["a.txt".data], [2])] ∧
    isHiddenName ".secret".data = true := by
  constructor
  · simp only [create_zip_package, subdirEntriesPkg]
    decide
  · rfl

/-- C5 amended: the wrapped-mode archive builder of the final script
prunes hidden directories and skips hidden files, so every entry path is
the root name followed by a nonempty chain of non-hidden components; on
the example tree with a.txt, sub/b.txt and .secret it yields exactly the
two visible entries.  The flat builder of build_nuttyfi32_package.py
prunes hidden directories but copies hidden files (see the
counterexample). -/
theorem archive_wrapped_hidden_free (R : List Char) (children : List FsTree) :
    (∀ e ∈ create_zip_entries R children,
      ∃ comps c, e = (R :: comps, c) ∧ comps ≠ [] ∧
        ∀ x ∈ comps, isHiddenName x = false) ∧
    create_zip_entries "R".data
      [FsTree.file "a.txt".data [1],
       FsTree.dir "sub".data [FsTree.file "b.txt".data [2]],
       FsTree.file ".secret".data [3]] =
      [(["R".data, "a.txt".data], [1]),
       (["R".data, "sub".data, "b.txt".data], [2])] := by
  constructor
  · intro e he
    unfold create_zip_entries at he
    rcases List.mem_append.mp he with hf | hs
    · obtain ⟨m, c, heq, hm⟩ := fileEntriesOf_shape _ _ _ hf
      refine ⟨[m], c, by simpa using heq, by simp, ?_⟩
      intro x hx
      rcases List.mem_cons.mp hx with hx | hx
      · subst hx
        exact hm
      · exact absurd hx (List.not_mem_nil x)
    · obtain ⟨comps, c, heq, hne, hall⟩ := subdirEntries_shape _ _ _ hs
      exact ⟨comps, c, by simpa using heq, hne, hall⟩
  · simp only [create_zip_entries, subdirEntries]
    decide

/-- C5 witness: the shape property applied to the first entry of the
example archive. -/
theorem archive_wrapped_witness :
    ∃ comps c,
      ((["R".data, "a.txt".data] : List (List Char)), ([1] : List Nat)) =
        ("R".data :: comps, c) ∧ comps ≠ [] ∧
      ∀ x ∈ comps, isHiddenName x = false :=
  (archive_wrapped_hidden_free "R".data
    [FsTree.file "a.txt".data [1],
     FsTree.dir "sub".data [FsTree.file "b.txt".data [2]],
     FsTree.file ".secret".data [3]]).1
    (["R".data, "a.txt".data], [1]) (by decide)

/-- The numeric value of a decimal digit character. -/
theorem digitChar_toNat (d : Nat) (h : d < 10) :
    (digitChar d).toNat = 48 + d := by
  interval_cases d <;> rfl

/-- Every character printed by the decimal printer is an ASCII digit. -/
theorem natCharsCore_digits :
    ∀ (fuel n : Nat), ∀ c ∈ natCharsCore fuel n,
      48 ≤ c.toNat ∧ c.toNat ≤ 57 := by
  intro fuel
  induction fuel with
  | zero =>
      intro n c hc
      exact absurd hc (List.not_mem_nil c)
  | succ fuel ih =>
      intro n c hc
      by_cases h10 : n < 10
      · rw [natCharsCore, if_pos h10] at hc
        rcases List.mem_singleton.mp hc with rfl
        rw [digitChar_toNat n h10]
        omega
      · rw [natCharsCore, if_neg h10] at hc
        rcases List.mem_append.mp hc with hc | hc
        · exact ih (n / 10) c hc
        · rcases List.mem_singleton.mp hc with rfl
          rw [digitChar_toNat (n % 10) (Nat.mod_lt n (by omega))]
          have := Nat.mod_lt n (show 0 < 10 by omega)
          omega

/-- No character of a printed number is the colon separator. -/
theorem natChars_ne_colon (n : Nat) (c : Char) (hc : c ∈ natChars n) :
    c ≠ ':' := by
  intro hcol
  have hb := natCharsCore_digits (n + 1) n c hc
  rw [hcol] at hb
  have : (':' : Char).toNat = 58 := rfl
  omega

/-- Decoding after appending one digit. -/
theorem decodeDigits_append (l : List Char) (c : Char) :
    decodeDigits (l ++ [c]) = decodeDigits l * 10 + (c.toNat - 48) := by
  simp [decodeDigits, List.foldl_append]

/-- The decoder inverts the fuelled decimal printer. -/
theorem decode_natCharsCore :
    ∀ (fuel n : Nat), n < fuel → decodeDigits (natCharsCore fuel n) = n := by
  intro fuel
  induction fuel with
  | zero =>
      intro n h
      omega
  | succ fuel ih =>
      intro n h
      by_cases h10 : n < 10
      · rw [natCharsCore, if_pos h10]
        simp [decodeDigits]
        rw [digitChar_toNat n h10]
        omega
      · rw [natCharsCore, if_neg h10, decodeDigits_append]
        have hdivlt : n / 10 < fuel := by
          have h1 : n / 10 < n := Nat.div_lt_self (by omega) (by omega)
          omega
        rw [ih (n / 10) hdivlt, digitChar_toNat (n % 10) (Nat.mod_lt n (by omega))]
        have := Nat.div_add_mod n 10
        omega

/-- The decimal printer is injective. -/
theorem natChars_inj (a b : Nat) (h : natChars a = natChars b) : a = b := by
  have ha := decode_natCharsCore (a + 1) a (by omega)
  have hb := decode_natCharsCore (b + 1) b (by omega)
  rw [← ha, ← hb]
  unfold natChars at h
  rw [h]

/-- Two colon-free runs followed by a colon and a tail determine each
other. -/
theorem digits_colon_cancel :
    ∀ (d1 d2 t1 t2 : List Char), (∀ c ∈ d1, c ≠ ':') → (∀ c ∈ d2, c ≠ ':') →
      d1 ++ ':' :: t1 = d2 ++ ':' :: t2 → d1 = d2 ∧ t1 = t2 := by
  intro d1
  induction d1 with
  | nil =>
      intro d2 t1 t2 _ h2 heq
      rcases d2 with _ | ⟨b, bs⟩
      · simpa using heq
      · exfalso
        have hb : b = ':' := by
          have := congrArg (fun l => l.head?) heq
          simpa using this.symm
        exact h2 b (List.mem_cons_self b bs) hb
  | cons a as ih =>
      intro d2 t1 t2 h1 h2 heq
      rcases d2 with _ | ⟨b, bs⟩
      · exfalso
        have ha : a = ':' := by
          have := congrArg (fun l => l.head?) heq
          simpa using this
        exact h1 a (List.mem_cons_self a as) ha
      · have hab : a = b ∧ as ++ ':' :: t1 = bs ++ ':' :: t2 := by
          constructor
          · have := congrArg (fun l => l.head?) heq
            simpa using this
          · have := congrArg List.tail heq
            simpa using this
        obtain ⟨rfl, hrest⟩ := hab
        obtain ⟨hd, ht⟩ := ih bs t1 t2
          (fun c hc => h1 c (List.mem_cons_of_mem a hc))
          (fun c hc => h2 c (List.mem_cons_of_mem a hc)) hrest
        exact ⟨by rw [hd], ht⟩

/-- Replacing only the mtime and size of one encoded triple, with the
same path and the same following stream, forces them to be equal:
the encoding of the metadata stream is injective at that position. -/
theorem encode_replace_inj (p : List Char) (m z m' z' : Nat) (T : List Char)
    (h : encodeTriple (p, m, z) ++ T = encodeTriple (p, m', z') ++ T) :
    m = m' ∧ z = z' := by
  unfold encodeTriple at h
  simp only [List.append_assoc, List.singleton_append, List.cons_append] at h
  have h1 : natChars m ++ ':' :: (natChars z ++ T) =
      natChars m' ++ ':' :: (natChars z' ++ T) := by
    have := List.append_cancel_left h
    simpa using this
  obtain ⟨hm, hz⟩ := digits_colon_cancel (natChars m) (natChars m') _ _
    (fun c hc => natChars_ne_colon m c hc)
    (fun c hc => natChars_ne_colon m' c hc) h1
  have hz' : natChars z = natChars z' := List.append_cancel_right hz
  exact ⟨natChars_inj m m' hm, natChars_inj z z' hz'⟩

/-- A lower bound transfers across a change of the numeric components
when the paths differ. -/
theorem tripleLE_left_of_ne (a x : List Char × Nat × Nat) (m z : Nat)
    (h : tripleLE a x) (hne : a.1 ≠ x.1) : tripleLE a (x.1, m, z) := by
  rcases h with h | ⟨he, _⟩
  · exact Or.inl h
  · exact absurd he hne

/-- An upper bound transfers across a change of the numeric components
when the paths differ. -/
theorem tripleLE_right_of_ne (x b : List Char × Nat × Nat) (m z : Nat)
    (h : tripleLE x b) (hne : x.1 ≠ b.1) : tripleLE (x.1, m, z) b := by
  rcases h with h | ⟨he, _⟩
  · exact Or.inl h
  · exact absurd he hne

/-- Sorting is a function of the multiset of entries. -/
theorem sortTriples_perm (l l' : List (List Char × Nat × Nat))
    (h : l.Perm l') : sortTriples l = sortTriples l' :=
  List.eq_of_perm_of_sorted
    ((List.perm_insertionSort tripleLE l).trans
      (h.trans (List.perm_insertionSort tripleLE l').symm))
    (List.sorted_insertionSort tripleLE l)
    (List.sorted_insertionSort tripleLE l')

/-- When the paths of a list are pairwise distinct, changing only the
numeric components of one entry changes the sorted list at exactly the
position where that entry sits. -/
theorem sortTriples_replace (pre post : List (List Char × Nat × Nat))
    (p : List Char) (m z m' z' : Nat)
    (hp : (pre ++ (p, m, z) :: post).Pairwise
      (fun u v : List Char × Nat × Nat => u.1 ≠ v.1)) :
    ∃ A B, sortTriples (pre ++ (p, m, z) :: post) = A ++ (p, m, z) :: B ∧
      sortTriples (pre ++ (p, m', z') :: post) = A ++ (p, m', z') :: B := by
  have hmem : (p, m, z) ∈ sortTriples (pre ++ (p, m, z) :: post) :=
    (List.perm_insertionSort tripleLE _).mem_iff.mpr (by simp)
  obtain ⟨A, B, hS⟩ := List.append_of_mem hmem
  refine ⟨A, B, hS, ?_⟩
  have hSl : (sortTriples (pre ++ (p, m, z) :: post)).Perm
      (pre ++ (p, m, z) :: post) := List.perm_insertionSort tripleLE _
  have h1 : (A ++ (p, m, z) :: B).Perm (pre ++ (p, m, z) :: post) := hS ▸ hSl
  have h2 : (A ++ B).Perm (pre ++ post) := by
    have ha : (A ++ (p, m, z) :: B).Perm ((p, m, z) :: (A ++ B)) :=
      List.perm_middle
    have hb : (pre ++ (p, m, z) :: post).Perm ((p, m, z) :: (pre ++ post)) :=
      List.perm_middle
    exact (List.perm_cons (p, m, z)).mp (ha.symm.trans (h1.trans hb))
  have hl' : (pre ++ (p, m', z') :: post).Perm (A ++ (p, m', z') :: B) := by
    have ha : (A ++ (p, m', z') :: B).Perm ((p, m', z') :: (A ++ B)) :=
      List.perm_middle
    have hb : (pre ++ (p, m', z') :: post).Perm ((p, m', z') :: (pre ++ post)) :=
      List.perm_middle
    exact hb.trans (((h2.symm).cons (p, m', z')).trans ha.symm)
  have hsorted : List.Sorted tripleLE (A ++ (p, m, z) :: B) :=
    hS ▸ List.sorted_insertionSort tripleLE _
  have hpairS : (A ++ (p, m, z) :: B).Pairwise
      (fun u v : List Char × Nat × Nat => u.1 ≠ v.1) :=
    (h1.pairwise_iff (fun h => h.symm)).mpr hp
  obtain ⟨sA, sXB, scross⟩ := List.pairwise_append.mp hsorted
  obtain ⟨relXB, pB⟩ := List.pairwise_cons.mp sXB
  obtain ⟨pnA, pnXB, ncross⟩ := List.pairwise_append.mp hpairS
  obtain ⟨neXB, pneB⟩ := List.pairwise_cons.mp pnXB
  have hsorted' : List.Sorted tripleLE (A ++ (p, m', z') :: B) := by
    refine List.pairwise_append.mpr ⟨sA, ?_, ?_⟩
    · refine List.pairwise_cons.mpr ⟨?_, pB⟩
      intro b hb
      exact tripleLE_right_of_ne (p, m, z) b m' z' (relXB b hb) (neXB b hb)
    · intro a ha b hb
      rcases List.mem_cons.mp hb with rfl | hb
      · exact tripleLE_left_of_ne a (p, m, z) m' z'
          (scross a ha (p, m, z) (List.mem_cons_self _ _))
          (ncross a ha (p, m, z) (List.mem_cons_self _ _))
      · exact scross a ha b (List.mem_cons_of_mem _ hb)
  exact List.eq_of_perm_of_sorted
    ((List.perm_insertionSort tripleLE _).trans hl')
    (List.sorted_insertionSort tripleLE _) hsorted'

/-- C7: the directory-mode fingerprint is invariant under every
re-ordering of the enumerated (path, mtime, size) triples, since the
entries are sorted before being folded into the digest; and, for an
injective digest, changing the mtime or size of any one file of a tree
with pairwise distinct relative paths changes the fingerprint, because
the digest input itself changes. -/
theorem fingerprint_properties (hexDigest : List Char → List Char) :
    (∀ l l' : List (List Char × Nat × Nat), l.Perm l' →
      calculate_bsp_hash hexDigest l = calculate_bsp_hash hexDigest l') ∧
    (Function.Injective hexDigest →
      ∀ (pre post : List (List Char × Nat × Nat)) (p : List Char)
        (m z m' z' : Nat), ¬(m = m' ∧ z = z') →
        (pre ++ (p, m, z) :: post).Pairwise
          (fun u v : List Char × Nat × Nat => u.1 ≠ v.1) →
        calculate_bsp_hash hexDigest (pre ++ (p, m, z) :: post) ≠
          calculate_bsp_hash hexDigest (pre ++ (p, m', z') :: post)) := by
  constructor
  · intro l l' h
    unfold calculate_bsp_hash foldInput
    rw [sortTriples_perm l l' h]
  · intro hinj pre post p m z m' z' hne hp heq
    have hfold : foldInput (pre ++ (p, m, z) :: post) =
        foldInput (pre ++ (p, m', z') :: post) := hinj heq
    obtain ⟨A, B, hS1, hS2⟩ := sortTriples_replace pre post p m z m' z' hp
    unfold foldInput at hfold
    rw [hS1, hS2] at hfold
    simp only [List.map_append, List.map_cons, List.flatten_append,
      List.flatten_cons] at hfold
    have hmid : encodeTriple (p, m, z) ++
        (List.map encodeTriple B).flatten =
        encodeTriple (p, m', z') ++ (List.map encodeTriple B).flatten := by
      have := List.append_cancel_left hfold
      simpa [List.append_assoc] using this
    exact hne (encode_replace_inj p m z m' z' _ hmid)

/-- C7 witness: swapping two entries leaves the fingerprint unchanged,
and changing the mtime of one entry changes it (for the injective
identity digest). -/
theorem fingerprint_witness :
    calculate_bsp_hash (fun d => d)
      [("b".data, 1, 2), ("a".data, 3, 4)] =
      calculate_bsp_hash (fun d => d)
      [("a".data, 3, 4), ("b".data, 1, 2)] ∧
    calculate_bsp_hash (fun d => d) [("a".data, 0, 0)] ≠
      calculate_bsp_hash (fun d => d) [("a".data, 1, 0)] :=
  ⟨(fingerprint_properties (fun d => d)).1 _ _
      (List.Perm.swap ("a".data, 3, 4) ("b".data, 1, 2) []),
   (fingerprint_properties (fun d => d)).2 (fun _ _ h => h)
      [] [] "a".data 0 0 1 0 (by simp) (by simp)⟩
